import Mathlib

/-!
Verification development for `src/scooper.ts` (dust-sweeper core).

The TypeScript source is embedded shallowly:

* `getTokenAccounts` is a pure function over the accounts returned by the two
  `getParsedProgramAccounts` queries (standard token program, token-2022);
  the raw on-chain `tokenAmount.amount` is an integer and is modelled as `Nat`
  (the source converts it `String → BigInt → String`, which preserves the
  integer value exactly and never passes through a floating type).
* the async functions `findQuotes` and `sweepTokens` are given a trace
  semantics: each callback invocation (and each remote request that matters
  to the specification) is an event; one asset's `async` branch is the fixed
  list of events that branch emits, and a whole-run trace is any interleaving
  of the branches, reflecting `Promise.all`'s single-threaded cooperative
  concurrency.  A predicate `findQuotes …` / `sweepTokens …` holds of exactly
  the traces the source can produce on the given environment; every such
  trace is a completed (resolved) run.
* remote collaborators (RPC connection, aggregator, wallet signer) are
  explicit environments: fallible calls are functions into `Except`.
-/

namespace Scooper

/-- Token directory entry (`interface TokenInfo` in the source). -/
structure TokenInfo where
  address : String
  chainId : Nat
  decimals : Nat
  name : String
  symbol : String
  logoURI : String
  tags : List String
  strict : Bool
deriving Repr, DecidableEq, Inhabited

/-- One parsed program account as returned by `getParsedProgramAccounts`:
the fields of `account.account.data.parsed.info` that the source reads, plus
the account identity.  `amount` is the raw on-chain integer token amount. -/
structure ParsedAccount where
  pubkey : String
  mint : String
  amount : Nat
deriving Repr, DecidableEq

/-- Result element of `getTokenAccounts` (`interface TokenBalance`). -/
structure TokenBalance where
  account : ParsedAccount
  token : TokenInfo
  balance : Nat
deriving Repr, DecidableEq

/-- Ledger connection as `getTokenAccounts` uses it: the two account queries
(dataSize 165 under the standard token program, dataSize 182 under
`TokenzQdBNbLqP5VEhdkAS6EPFLC1PHnBqCXEpPxuEb`), already filtered by wallet
ownership by the RPC node. -/
structure ScanConnection where
  tokenAccounts : List ParsedAccount
  token22Accounts : List ParsedAccount
deriving Repr, DecidableEq

/-- Embedding of `getTokenAccounts`: concatenate both account lists
(`[...accountsOld, ...accountsNew]`) and keep exactly the accounts whose mint
is a key of `tokenList`, pairing each with its directory entry and its raw
integer balance. -/
def getTokenAccounts (conn : ScanConnection) (tokenList : String → Option TokenInfo) :
    List TokenBalance :=
  (conn.tokenAccounts ++ conn.token22Accounts).filterMap fun account =>
    match tokenList account.mint with
    | some tok => some { account := account, token := tok, balance := account.amount }
    | none => none

/-- Quote request (`QuoteGetRequest`).  The source passes
`Number(asset.balance)`; the embedding keeps the integer amount (the cast's
potential precision loss is a documented limitation of the source, not
modelled here because no claim depends on it). -/
structure QuoteGetRequest where
  inputMint : String
  outputMint : String
  amount : Nat
deriving Repr, DecidableEq

/-- Aggregator quote; opaque to the pipeline, which only forwards it. -/
structure QuoteResponse where
  payload : String
deriving Repr, DecidableEq

/-- Body of a swap request (`swapRequest` field). -/
structure SwapRequest where
  userPublicKey : String
  quoteResponse : QuoteResponse
deriving Repr, DecidableEq

/-- Swap request wrapper (`SwapPostRequest`). -/
structure SwapPostRequest where
  swapRequest : SwapRequest
deriving Repr, DecidableEq

/-- Aggregator swap response; `swapTransaction` is the base64 transaction
blob, the only field the source reads. -/
structure SwapResponse where
  swapTransaction : String
deriving Repr, DecidableEq

/-- Aggregator client (`DefaultApi`): the two remote calls the pipeline
makes, each fallible. -/
structure DefaultApi where
  quoteGet : QuoteGetRequest → Except String QuoteResponse
  swapPost : SwapPostRequest → Except String SwapResponse

/-- Observable events of one `findQuotes` run: the four callbacks, plus a
marker for issuing the `swapPost` remote call (needed to state that a quote
failure issues no swap request). -/
inductive QuoteEvent where
  | foundAsset (id : String) (asset : TokenBalance)
  | foundQuote (id : String) (quote : QuoteResponse)
  | swapRequested (id : String)
  | foundSwap (id : String) (swap : SwapResponse)
  | errorCb (id : String) (err : String)
deriving Repr, DecidableEq

/-- Asset id an event belongs to. -/
def QuoteEvent.eid : QuoteEvent → String
  | .foundAsset i _ => i
  | .foundQuote i _ => i
  | .swapRequested i => i
  | .foundSwap i _ => i
  | .errorCb i _ => i

/-- Quote request built for one asset (body of `findQuotes`'s map). -/
def quoteRequestFor (outputMint : String) (asset : TokenBalance) : QuoteGetRequest :=
  { inputMint := asset.token.address, outputMint := outputMint, amount := asset.balance }

/-- Swap request built from a received quote. -/
def swapRequestFor (walletAddress : String) (quote : QuoteResponse) : SwapPostRequest :=
  { swapRequest := { userPublicKey := walletAddress, quoteResponse := quote } }

/-- Event list of one asset's `async` branch in `findQuotes`, in program
order: report the asset, request a quote; on quote failure report the
quote-stage error and stop; on success report the quote, issue the swap
request; on swap failure report the swap-stage error, else report the swap. -/
def assetBranch (quoteApi : DefaultApi) (outputMint walletAddress : String)
    (asset : TokenBalance) : List QuoteEvent :=
  QuoteEvent.foundAsset asset.token.address asset ::
  match quoteApi.quoteGet (quoteRequestFor outputMint asset) with
  | .error _ => [QuoteEvent.errorCb asset.token.address "Couldn\x27t get quote"]
  | .ok quote =>
    QuoteEvent.foundQuote asset.token.address quote ::
    QuoteEvent.swapRequested asset.token.address ::
    match quoteApi.swapPost (swapRequestFor walletAddress quote) with
    | .error _ => [QuoteEvent.errorCb asset.token.address "Couldn\x27t get swap transaction"]
    | .ok swap => [QuoteEvent.foundSwap asset.token.address swap]

/-- Interleaving of a family of sequential event lists: the possible global
traces of concurrently running branches under single-threaded cooperative
scheduling (each step consumes the next event of one branch). -/
inductive Interleaving {α : Type} : List (List α) → List α → Prop where
  | nil (ls : List (List α)) (h : ∀ l ∈ ls, l = []) : Interleaving ls []
  | cons (ls : List (List α)) (i : Nat) (e : α) (rest : List α) (out : List α)
      (hi : i < ls.length) (hl : ls.get ⟨i, hi⟩ = e :: rest)
      (ht : Interleaving (ls.set i rest) out) : Interleaving ls (e :: out)

/-- Trace semantics of `findQuotes`: if the account scan rejects, the
rejection is caught and logged and no callback fires (empty trace); otherwise
the trace is any interleaving of the per-asset branches spawned by
`Promise.all` over `assets.map`. -/
def findQuotes (tokens : String → Option TokenInfo) (outputMint walletAddress : String)
    (quoteApi : DefaultApi) (scanConn : Except String ScanConnection)
    (t : List QuoteEvent) : Prop :=
  match scanConn with
  | .error _ => t = []
  | .ok conn =>
      Interleaving
        ((getTokenAccounts conn tokens).map (assetBranch quoteApi outputMint walletAddress)) t

/-! Sweep executor (`sweepTokens`). -/

/-- Address of the standard SPL token program (`TOKEN_PROGRAM_ID`). -/
def TOKEN_PROGRAM_ID : String := "TokenkegQfeZyiNwAJbNbGKPFXCWuBvf9Ss623VQ5DA"

/-- Account-closure instruction with the argument slots of
`createCloseAccountInstruction(account, destination, authority, multiSigners)`.
The source passes `TOKEN_PROGRAM_ID` in the `account` slot and the wallet key
as destination and authority, with no multisig signers. -/
structure CloseAccountInstruction where
  account : String
  destination : String
  authority : String
  multiSigners : List String
deriving Repr, DecidableEq

/-- Embedding of `createCloseAccountInstruction` as called by the source. -/
def createCloseAccountInstruction (account destination authority : String)
    (multiSigners : List String) : CloseAccountInstruction :=
  { account := account, destination := destination, authority := authority,
    multiSigners := multiSigners }

/-- Transaction message (`new TransactionMessage({...}).compileToV0Message()`). -/
structure TransactionMessage where
  payerKey : String
  recentBlockhash : String
  instructions : List CloseAccountInstruction
deriving Repr, DecidableEq

/-- Versioned transaction: either compiled locally from a message (the
account-closure path) or deserialized from an aggregator-supplied binary blob
(the swap path).  A deserialized transaction is opaque to the sweep logic —
the source never reads or rewrites any of its fields — so it is represented
by the transport-encoded payload it was decoded from. -/
inductive VersionedTransaction where
  | fromMessage (message : TransactionMessage)
  | deserialized (raw : String)
deriving Repr, DecidableEq

/-- Block reference a transaction was built against: a locally compiled
message carries the `recentBlockhash` it was given; a deserialized swap
transaction is decoded verbatim from the aggregator payload, so it is built
against no locally fetched reference. -/
def VersionedTransaction.builtAgainst : VersionedTransaction → String → Prop
  | .fromMessage m, bh => m.recentBlockhash = bh
  | .deserialized _, _ => False

/-- Inner `asset.asset` record as `sweepTokens` reads it: a token with a
balance (the source accesses `asset.asset.balance` and
`asset.asset.token.address`). -/
structure AssetInfo where
  token : TokenInfo
  balance : Nat
deriving Repr, DecidableEq

/-- Working record handed to `sweepTokens` (`interface Asset`).  `checked`
is the user-approval flag (absent means unchecked). -/
structure Asset where
  asset : AssetInfo
  swap : Option SwapResponse
  checked : Bool
deriving Repr, DecidableEq

/-- Wallet capability (`WalletContextState`): public key and the batch
signing function, either of which may be absent. -/
structure WalletContextState where
  publicKey : Option String
  signAllTransactions :
    Option (List VersionedTransaction → Except String (List VersionedTransaction))

/-- Ledger connection as `sweepTokens` uses it: one `getLatestBlockhash`
(modelled as the value it resolves to) and `sendAndConfirmRawTransaction`
per transaction, resolving to a transaction id or rejecting. -/
structure Connection where
  blockhash : String
  sendAndConfirmRawTransaction : VersionedTransaction → Except String String

/-- Account-closure transaction built in the zero-balance/no-swap branch:
a v0 message paying from the wallet key, carrying the fetched blockhash and
the single closure instruction. -/
def closeAccountTx (publicKey blockHash : String) : VersionedTransaction :=
  .fromMessage
    { payerKey := publicKey,
      recentBlockhash := blockHash,
      instructions := [createCloseAccountInstruction TOKEN_PROGRAM_ID publicKey publicKey []] }

/-- Decoding of a swap payload (`atob` + byte copy +
`VersionedTransaction.deserialize`); the decoded transaction is determined by
the payload alone. -/
def deserializeSwapTransaction (swapTransaction : String) : VersionedTransaction :=
  .deserialized swapTransaction

/-- One iteration of the transaction-assembly loop of `sweepTokens`.  Returns
the account-closure transaction this iteration constructs (and then drops:
the source never pushes `closeAccountTx`) and the `[id, transaction]` pair it
pushes onto `transactions`, if any. -/
def buildForAsset (publicKey : Option String) (blockHash : String) (a : Asset) :
    Option VersionedTransaction × Option (String × VersionedTransaction) :=
  match publicKey with
  | none => (none, none)
  | some pk =>
    if a.checked then
      (if a.swap.isSome ∨ a.asset.balance = 0 then some (closeAccountTx pk blockHash) else none,
       match a.swap with
       | some sw => some (a.asset.token.address, deserializeSwapTransaction sw.swapTransaction)
       | none => none)
    else (none, none)

/-- Transaction-assembly loop of `sweepTokens` (`assets.forEach`): the
account-closure transactions constructed along the way, and the
`transactions` list queued for signing, in input order. -/
def buildTransactions (publicKey : Option String) (blockHash : String) (assets : List Asset) :
    List VersionedTransaction × List (String × VersionedTransaction) :=
  (assets.filterMap fun a => (buildForAsset publicKey blockHash a).1,
   assets.filterMap fun a => (buildForAsset publicKey blockHash a).2)

/-- Observable events of one `sweepTokens` run: the blockhash fetch, the
three callbacks, and a marker for each `sendAndConfirmRawTransaction`
submission attempt. -/
inductive SweepEvent where
  | fetchedBlockhash
  | submitted (id : String)
  | stateCb (id : String) (state : String)
  | txIdCb (id : String) (txid : String)
  | errorCb (id : String) (err : String)
deriving Repr, DecidableEq

/-- Asset id a sweep event belongs to (`none` for the blockhash fetch). -/
def SweepEvent.eid : SweepEvent → Option String
  | .fetchedBlockhash => none
  | .submitted i => some i
  | .stateCb i _ => some i
  | .txIdCb i _ => some i
  | .errorCb i _ => some i

/-- Whether an event is a submission attempt. -/
def SweepEvent.isSubmitted : SweepEvent → Bool
  | .submitted _ => true
  | _ => false

/-- Whether an event is a `transactionStateCallback` invocation. -/
def SweepEvent.isStateCb : SweepEvent → Bool
  | .stateCb _ _ => true
  | _ => false

/-- Whether an event is a `transactionIdCallback` invocation. -/
def SweepEvent.isTxIdCb : SweepEvent → Bool
  | .txIdCb _ _ => true
  | _ => false

/-- Whether an event is an `errorCallback` invocation. -/
def SweepEvent.isErrorCb : SweepEvent → Bool
  | .errorCb _ _ => true
  | _ => false

/-- Event list of one submission branch inside `Promise.all`: emit state
Scooping, attempt submit-and-confirm, then state Scooped on success, or
state Error plus the error callback on failure.  The resolved transaction id
is discarded by the source (`result` is unused), so no `txIdCb` is emitted. -/
def submitBranch (conn : Connection) (idtx : String × VersionedTransaction) :
    List SweepEvent :=
  SweepEvent.stateCb idtx.1 "Scooping" ::
  SweepEvent.submitted idtx.1 ::
  match conn.sendAndConfirmRawTransaction idtx.2 with
  | .ok _ => [SweepEvent.stateCb idtx.1 "Scooped"]
  | .error err => [SweepEvent.stateCb idtx.1 "Error", SweepEvent.errorCb idtx.1 err]

/-- Trace semantics of `sweepTokens`: fetch the blockhash once up front,
assemble the transaction queue synchronously, then — only if the wallet
exposes `signAllTransactions` — sign the whole queue in one batch.  A signing
failure is caught and reported once with an empty id; on success the signed
transactions are submitted concurrently (`Promise.all`), each branch keyed by
`transactions[i][0]`.  Every trace is a completed (resolved) run. -/
def sweepTokens (wallet : WalletContextState) (connection : Connection)
    (assets : List Asset) (t : List SweepEvent) : Prop :=
  let transactions := (buildTransactions wallet.publicKey connection.blockhash assets).2
  match wallet.signAllTransactions with
  | none => t = [SweepEvent.fetchedBlockhash]
  | some signAll =>
    match signAll (transactions.map Prod.snd) with
    | .error _ =>
        t = [SweepEvent.fetchedBlockhash,
             SweepEvent.errorCb "" "Failed signing transactions!"]
    | .ok signed =>
        ∃ u, Interleaving
              (((transactions.map Prod.fst).zip signed).map (submitBranch connection)) u ∧
            t = SweepEvent.fetchedBlockhash :: u

/-! Concrete fixtures used by the witness theorems. -/

/-- Fixture token X. -/
def tokenX : TokenInfo :=
  { address := "MintX", chainId := 101, decimals := 6, name := "Token X",
    symbol := "TKX", logoURI := "", tags := [], strict := true }

/-- Fixture token Y. -/
def tokenY : TokenInfo :=
  { address := "MintY", chainId := 101, decimals := 9, name := "Token Y",
    symbol := "TKY", logoURI := "", tags := [], strict := false }

/-- Fixture account holding 50 raw units of token X. -/
def accountX : ParsedAccount := { pubkey := "AccX", mint := "MintX", amount := 50 }

/-- Fixture account holding 9 raw units of token Y. -/
def accountY : ParsedAccount := { pubkey := "AccY", mint := "MintY", amount := 9 }

/-- Fixture account whose mint is absent from every directory fixture. -/
def accountUnknown : ParsedAccount := { pubkey := "AccU", mint := "MintU", amount := 7 }

/-- Directory knowing only token X. -/
def dirX : String → Option TokenInfo := fun m => if m = "MintX" then some tokenX else none

/-- Directory knowing tokens X and Y. -/
def dirXY : String → Option TokenInfo :=
  fun m => if m = "MintX" then some tokenX else if m = "MintY" then some tokenY else none

/-- Scan fixture: token-X account plus an unknown-mint account. -/
def connX : ScanConnection :=
  { tokenAccounts := [accountX, accountUnknown], token22Accounts := [] }

/-- Scan fixture with accounts in both account layouts. -/
def connXY : ScanConnection :=
  { tokenAccounts := [accountX], token22Accounts := [accountY] }

/-- Scan fixture finding no accounts. -/
def emptyScan : ScanConnection := { tokenAccounts := [], token22Accounts := [] }

/-- Balance snapshot of `accountX`. -/
def balanceX : TokenBalance := { account := accountX, token := tokenX, balance := 50 }

/-- Balance snapshot of `accountY`. -/
def balanceY : TokenBalance := { account := accountY, token := tokenY, balance := 9 }

/-- Aggregator fixture answering every request successfully. -/
def apiOk : DefaultApi :=
  { quoteGet := fun _ => Except.ok { payload := "quoteX" },
    swapPost := fun _ => Except.ok { swapTransaction := "swapblobX" } }

/-- Aggregator fixture rejecting every quote request. -/
def apiQuoteFail : DefaultApi :=
  { quoteGet := fun _ => Except.error "HTTP 500",
    swapPost := fun _ => Except.ok { swapTransaction := "never" } }

/-- Aggregator fixture rejecting quotes for token X only. -/
def apiFailX : DefaultApi :=
  { quoteGet := fun r =>
      if r.inputMint = "MintX" then Except.error "no route"
      else Except.ok { payload := "qY" },
    swapPost := fun _ => Except.ok { swapTransaction := "swapY" } }

/-- Fully sequential `findQuotes` trace over `connX`/`dirX` against the
quote-rejecting aggregator. -/
def tC1 : List QuoteEvent :=
  ((getTokenAccounts connX dirX).map (assetBranch apiQuoteFail "OUT" "Wallet1")).flatten

/-- Fully sequential `findQuotes` trace over `connXY`/`dirXY` against the
aggregator failing only token X. -/
def tC4 : List QuoteEvent :=
  ((getTokenAccounts connXY dirXY).map (assetBranch apiFailX "OUT" "Wallet1")).flatten

/-- Fully sequential `findQuotes` trace over `connX`/`dirX` against the
all-success aggregator. -/
def tC7 : List QuoteEvent :=
  ((getTokenAccounts connX dirX).map (assetBranch apiOk "OUT" "Wallet1")).flatten

/-- Approved asset with a swap payload (token X). -/
def assetX : Asset :=
  { asset := { token := tokenX, balance := 50 },
    swap := some { swapTransaction := "swapblobX" }, checked := true }

/-- Approved zero-balance asset without a swap payload (token Y). -/
def assetY0 : Asset :=
  { asset := { token := tokenY, balance := 0 }, swap := none, checked := true }

/-- Batch signer that rejects. -/
def signFail : List VersionedTransaction → Except String (List VersionedTransaction) :=
  fun _ => Except.error "user rejected"

/-- Batch signer that signs everything (returns the batch unchanged). -/
def signOk : List VersionedTransaction → Except String (List VersionedTransaction) :=
  fun txs => Except.ok txs

/-- Wallet whose batch signing rejects. -/
def walletFail : WalletContextState :=
  { publicKey := some "Wallet1", signAllTransactions := some signFail }

/-- Wallet whose batch signing succeeds. -/
def walletOk : WalletContextState :=
  { publicKey := some "Wallet1", signAllTransactions := some signOk }

/-- Wallet exposing no `signAllTransactions` capability. -/
def walletNoSign : WalletContextState :=
  { publicKey := some "Wallet1", signAllTransactions := none }

/-- Connection whose submissions all confirm. -/
def connOk : Connection :=
  { blockhash := "h1", sendAndConfirmRawTransaction := fun _ => Except.ok "sig1" }

/-- Sequential sweep trace for a wallet whose batch signature returns its
input unchanged. -/
def sweepSeqTrace (wallet : WalletContextState) (conn : Connection) (assets : List Asset) :
    List SweepEvent :=
  SweepEvent.fetchedBlockhash ::
    (((((buildTransactions wallet.publicKey conn.blockhash assets).2).map Prod.fst).zip
      (((buildTransactions wallet.publicKey conn.blockhash assets).2).map Prod.snd)).map
      (submitBranch conn)).flatten

/-! General lemmas about interleavings. -/

theorem interleaving_skip_nil {α : Type} {ls : List (List α)} {out : List α}
    (h : Interleaving ls out) : Interleaving ([] :: ls) out := by
  induction h with
  | nil ls hnil =>
    refine .nil _ ?_
    intro l hl
    rcases List.mem_cons.mp hl with rfl | hl
    · rfl
    · exact hnil l hl
  | cons ls i e rest out hi hl ht ih =>
    exact .cons ([] :: ls) (i + 1) e rest out (Nat.succ_lt_succ hi) hl ih

theorem interleaving_cons_head {α : Type} {ls : List (List α)} {out : List α} (l : List α)
    (h : Interleaving ls out) : Interleaving (l :: ls) (l ++ out) := by
  induction l with
  | nil => simpa using interleaving_skip_nil h
  | cons e l' ih => exact .cons ((e :: l') :: ls) 0 e l' (l' ++ out) (Nat.succ_pos _) rfl ih

/-- The fully sequential schedule is one legal interleaving. -/
theorem interleaving_flatten {α : Type} : ∀ ls : List (List α), Interleaving ls ls.flatten
  | [] => .nil [] (by simp)
  | l :: ls => by simpa using interleaving_cons_head l (interleaving_flatten ls)

/-- An interleaving of no branches is empty. -/
theorem interleaving_nil_family {α : Type} {out : List α}
    (h : Interleaving ([] : List (List α)) out) : out = [] := by
  cases h with
  | nil => rfl
  | cons ls i e rest out hi => exact absurd hi (by simp)

/-- Removing the head of one branch corresponds, up to permutation, to
removing one copy of that element from the flattened family. -/
theorem flatten_perm_set {α : Type} :
    ∀ (ls : List (List α)) (k : Nat) (hk : k < ls.length) (e : α) (rest : List α),
    ls.get ⟨k, hk⟩ = e :: rest → ls.flatten.Perm (e :: (ls.set k rest).flatten)
  | l :: ls, 0, _, e, rest, h => by
    have hl : l = e :: rest := h
    subst hl
    simp
  | l :: ls, k + 1, hk, e, rest, h => by
    have ih := flatten_perm_set ls k (Nat.lt_of_succ_lt_succ hk) e rest h
    simp only [List.flatten_cons, List.set_cons_succ]
    exact (ih.append_left l).trans List.perm_middle

/-- Any interleaving is a permutation of the branches' concatenation: a trace
contains every branch's events, each exactly once. -/
theorem Interleaving.perm_flatten {α : Type} {ls : List (List α)} {out : List α}
    (h : Interleaving ls out) : out.Perm ls.flatten := by
  induction h with
  | nil ls hnil =>
    have hfl : ls.flatten = [] := List.flatten_eq_nil_iff.mpr hnil
    simp [hfl]
  | cons ls k e rest out hk hl ht ih =>
    exact (ih.cons e).trans (flatten_perm_set ls k hk e rest hl).symm

/-- Projection of an interleaving onto one branch: if `p` selects all events
of branch `i` and no event of any other branch, filtering the trace by `p`
recovers branch `i` in its original order. -/
theorem Interleaving.filter_eq {α : Type} {p : α → Bool} :
    ∀ {ls : List (List α)} {out : List α}, Interleaving ls out →
    ∀ (i : Nat) (hi : i < ls.length),
    (∀ e ∈ ls.get ⟨i, hi⟩, p e = true) →
    (∀ (j : Nat) (hj : j < ls.length), j ≠ i → ∀ e ∈ ls.get ⟨j, hj⟩, p e = false) →
    out.filter p = ls.get ⟨i, hi⟩ := by
  intro ls out h
  induction h with
  | nil ls hnil =>
    intro i hi _ _
    rw [List.filter_nil, hnil _ (List.get_mem ls i hi)]
  | cons ls k e rest out hk hl ht ih =>
    intro i hi hpos hneg
    by_cases hki : k = i
    · subst hki
      have hpe : p e = true := hpos e (by rw [show ls.get ⟨k, hi⟩ = e :: rest from hl]
                                        ; exact List.mem_cons_self _ _)
      have hklen : k < (ls.set k rest).length := by simpa using hk
      have hget : (ls.set k rest).get ⟨k, hklen⟩ = rest := by
        simp [List.get_eq_getElem]
      have htail : out.filter p = rest := by
        refine (ih k hklen ?_ ?_).trans hget
        · intro x hx
          rw [hget] at hx
          refine hpos x ?_
          rw [show ls.get ⟨k, hi⟩ = e :: rest from hl]
          exact List.mem_cons_of_mem _ hx
        · intro j hj hjk x hx
          have hjlen : j < ls.length := by simpa using hj
          have hgj : (ls.set k rest).get ⟨j, hj⟩ = ls.get ⟨j, hjlen⟩ := by
            simp [List.get_eq_getElem, List.getElem_set_ne (fun h => hjk h.symm)]
          rw [hgj] at hx
          exact hneg j hjlen hjk x hx
      rw [List.filter_cons_of_pos hpe, htail]
      exact hl.symm
    · have hpe : p e = false := by
        refine hneg k hk hki e ?_
        rw [hl]; exact List.mem_cons_self _ _
      have hilen : i < (ls.set k rest).length := by simpa using hi
      have hgi : (ls.set k rest).get ⟨i, hilen⟩ = ls.get ⟨i, hi⟩ := by
        simp [List.get_eq_getElem, List.getElem_set_ne hki]
      have htail : out.filter p = ls.get ⟨i, hi⟩ := by
        refine (ih i hilen ?_ ?_).trans hgi
        · intro x hx
          rw [hgi] at hx
          exact hpos x hx
        · intro j hj hji x hx
          have hjlen : j < ls.length := by simpa using hj
          by_cases hjk : j = k
          · have hgj : (ls.set k rest).get ⟨j, hj⟩ = rest := by
              subst hjk
              simp [List.get_eq_getElem]
            rw [hgj] at hx
            have hmem : x ∈ ls.get ⟨j, hjlen⟩ := by
              subst hjk
              rw [hl]
              exact List.mem_cons_of_mem _ hx
            exact hneg j hjlen hji x hmem
          · have hgj : (ls.set k rest).get ⟨j, hj⟩ = ls.get ⟨j, hjlen⟩ := by
              simp [List.get_eq_getElem, List.getElem_set_ne (fun h => hjk h.symm)]
            rw [hgj] at hx
            exact hneg j hjlen hji x hx
      rw [List.filter_cons_of_neg (by simp [hpe]), htail]

/-- Projection of an interleaving of keyed branches: when branch keys are
pairwise distinct, filtering a trace by one branch's key recovers exactly
that branch, in order. -/
theorem interleaving_filter_key {α β κ : Type} [DecidableEq κ]
    (f : β → List α) (key : β → κ) (eid : α → κ)
    (hkey : ∀ b, ∀ e ∈ f b, eid e = key b)
    (xs : List β) (hnodup : (xs.map key).Nodup)
    (out : List α) (h : Interleaving (xs.map f) out)
    (b : β) (hb : b ∈ xs) :
    out.filter (fun e => eid e = key b) = f b := by
  obtain ⟨⟨i, hi⟩, hget⟩ := List.mem_iff_get.mp hb
  have hi' : i < (xs.map f).length := by simpa using hi
  have hmap : ∀ (j : Nat) (hj : j < (xs.map f).length),
      (xs.map f).get ⟨j, hj⟩ = f (xs.get ⟨j, by simpa using hj⟩) := by
    intro j hj
    simp [List.get_eq_getElem]
  refine (h.filter_eq i hi' ?_ ?_).trans ?_
  · intro e he
    rw [hmap i hi'] at he
    have h1 : eid e = key b := by
      rw [hkey _ e he]
      exact congrArg key hget
    simpa using h1
  · intro j hj hji e he
    have hjlen : j < xs.length := by simpa using hj
    rw [hmap j hj] at he
    have hne : key (xs.get ⟨j, hjlen⟩) ≠ key b := by
      intro hqe
      have hj2 : j < (xs.map key).length := by simpa using hjlen
      have hi2 : i < (xs.map key).length := by simpa using hi
      have heq : (xs.map key).get ⟨j, hj2⟩ = (xs.map key).get ⟨i, hi2⟩ := by
        have hgj : (xs.map key).get ⟨j, hj2⟩ = key (xs.get ⟨j, hjlen⟩) := by
          simp [List.get_eq_getElem]
        have hgi : (xs.map key).get ⟨i, hi2⟩ = key (xs.get ⟨i, hi⟩) := by
          simp [List.get_eq_getElem]
        rw [hgj, hgi, hget]
        exact hqe
      have hfin := hnodup.get_inj_iff.mp heq
      exact hji (by simpa using congrArg Fin.val hfin)
    have h1 : eid e = key (xs.get ⟨j, hjlen⟩) := hkey _ e he
    simp only [h1, decide_eq_false_iff_not]
    exact hne
  · rw [hmap i hi', hget]

/-- Every event of an asset's quote-pipeline branch carries that asset's
token address as its id. -/
theorem assetBranch_eid (quoteApi : DefaultApi) (outputMint walletAddress : String)
    (asset : TokenBalance) :
    ∀ e ∈ assetBranch quoteApi outputMint walletAddress asset,
      QuoteEvent.eid e = asset.token.address := by
  intro e he
  cases hq : quoteApi.quoteGet (quoteRequestFor outputMint asset) with
  | error err =>
    simp only [assetBranch, hq, List.mem_cons, List.mem_singleton, List.not_mem_nil,
      or_false] at he
    rcases he with rfl | rfl <;> rfl
  | ok q =>
    cases hs : quoteApi.swapPost (swapRequestFor walletAddress q) with
    | error err2 =>
      simp only [assetBranch, hq, hs, List.mem_cons, List.mem_singleton, List.not_mem_nil,
        or_false] at he
      rcases he with rfl | rfl | rfl | rfl <;> rfl
    | ok s =>
      simp only [assetBranch, hq, hs, List.mem_cons, List.mem_singleton, List.not_mem_nil,
        or_false] at he
      rcases he with rfl | rfl | rfl | rfl <;> rfl

/-! Claims about the quote pipeline and the account scanner. -/

/-- C1: for every asset processed by `findQuotes`, the callbacks for that
asset's id fire in the order foundAssetCallback, foundQuoteCallback, then
foundSwapCallback-or-errorCallback (the per-id projection of any trace is
exactly the asset's branch, whose three possible shapes are listed); and
whenever the quote request fails, no swap request is issued and the swap
callback never fires for that id — the error callback fires with the
quote-stage reason instead. -/
theorem findQuotes_asset_order
    (tokens : String → Option TokenInfo) (outputMint walletAddress : String)
    (quoteApi : DefaultApi) (conn : ScanConnection) (t : List QuoteEvent)
    (asset : TokenBalance)
    (hnodup : ((getTokenAccounts conn tokens).map fun a => a.token.address).Nodup)
    (hrun : findQuotes tokens outputMint walletAddress quoteApi (Except.ok conn) t)
    (hmem : asset ∈ getTokenAccounts conn tokens) :
    t.filter (fun e => QuoteEvent.eid e = asset.token.address) =
      assetBranch quoteApi outputMint walletAddress asset ∧
    (∀ q s, quoteApi.quoteGet (quoteRequestFor outputMint asset) = Except.ok q →
      quoteApi.swapPost (swapRequestFor walletAddress q) = Except.ok s →
      t.filter (fun e => QuoteEvent.eid e = asset.token.address) =
        [QuoteEvent.foundAsset asset.token.address asset,
         QuoteEvent.foundQuote asset.token.address q,
         QuoteEvent.swapRequested asset.token.address,
         QuoteEvent.foundSwap asset.token.address s]) ∧
    (∀ q err, quoteApi.quoteGet (quoteRequestFor outputMint asset) = Except.ok q →
      quoteApi.swapPost (swapRequestFor walletAddress q) = Except.error err →
      t.filter (fun e => QuoteEvent.eid e = asset.token.address) =
        [QuoteEvent.foundAsset asset.token.address asset,
         QuoteEvent.foundQuote asset.token.address q,
         QuoteEvent.swapRequested asset.token.address,
         QuoteEvent.errorCb asset.token.address "Couldn\x27t get swap transaction"]) ∧
    (∀ err, quoteApi.quoteGet (quoteRequestFor outputMint asset) = Except.error err →
      t.filter (fun e => QuoteEvent.eid e = asset.token.address) =
        [QuoteEvent.foundAsset asset.token.address asset,
         QuoteEvent.errorCb asset.token.address "Couldn\x27t get quote"] ∧
      QuoteEvent.swapRequested asset.token.address ∉ t ∧
      ∀ s, QuoteEvent.foundSwap asset.token.address s ∉ t) := by
  have hfilter : t.filter (fun e => QuoteEvent.eid e = asset.token.address) =
      assetBranch quoteApi outputMint walletAddress asset :=
    interleaving_filter_key (assetBranch quoteApi outputMint walletAddress)
      (fun a => a.token.address) QuoteEvent.eid
      (fun b => assetBranch_eid quoteApi outputMint walletAddress b)
      (getTokenAccounts conn tokens) hnodup t hrun asset hmem
  refine ⟨hfilter, ?_, ?_, ?_⟩
  · intro q s hq hs
    rw [hfilter]
    simp [assetBranch, hq, hs]
  · intro q err hq hs
    rw [hfilter]
    simp [assetBranch, hq, hs]
  · intro err hq
    have hshape : t.filter (fun e => QuoteEvent.eid e = asset.token.address) =
        [QuoteEvent.foundAsset asset.token.address asset,
         QuoteEvent.errorCb asset.token.address "Couldn\x27t get quote"] := by
      rw [hfilter]
      simp [assetBranch, hq]
    refine ⟨hshape, ?_, ?_⟩
    · intro hmemt
      have : QuoteEvent.swapRequested asset.token.address ∈
          t.filter (fun e => QuoteEvent.eid e = asset.token.address) :=
        List.mem_filter.mpr ⟨hmemt, by simp [QuoteEvent.eid]⟩
      rw [hshape] at this
      simp at this
    · intro s hmemt
      have : QuoteEvent.foundSwap asset.token.address s ∈
          t.filter (fun e => QuoteEvent.eid e = asset.token.address) :=
        List.mem_filter.mpr ⟨hmemt, by simp [QuoteEvent.eid]⟩
      rw [hshape] at this
      simp at this

/-- Witness for C1: over the concrete fixture scan (one known asset, one
unknown-mint account) against the quote-rejecting aggregator, the sequential
trace projects to exactly the asset's branch. -/
theorem findQuotes_asset_order_witness :
    tC1.filter (fun e => QuoteEvent.eid e = balanceX.token.address) =
      assetBranch apiQuoteFail "OUT" "Wallet1" balanceX :=
  (findQuotes_asset_order dirX "OUT" "Wallet1" apiQuoteFail connX tC1 balanceX
    (by decide) (interleaving_flatten _) (by decide)).1

/-- C4: in `findQuotes`, a quote or swap failure on one asset never prevents
the asset, quote, or swap callback from firing for any other asset: for
every asset of the scan (against an arbitrary aggregator, so siblings may
fail arbitrarily), the asset callback fires, the quote callback fires when
that asset's quote call succeeds, and the swap callback fires when both of
that asset's calls succeed — its branch always runs to completion inside
every trace. -/
theorem findQuotes_isolation
    (tokens : String → Option TokenInfo) (outputMint walletAddress : String)
    (quoteApi : DefaultApi) (conn : ScanConnection) (t : List QuoteEvent)
    (asset : TokenBalance)
    (hnodup : ((getTokenAccounts conn tokens).map fun a => a.token.address).Nodup)
    (hrun : findQuotes tokens outputMint walletAddress quoteApi (Except.ok conn) t)
    (hmem : asset ∈ getTokenAccounts conn tokens) :
    QuoteEvent.foundAsset asset.token.address asset ∈ t ∧
    (∀ q, quoteApi.quoteGet (quoteRequestFor outputMint asset) = Except.ok q →
      QuoteEvent.foundQuote asset.token.address q ∈ t) ∧
    (∀ q s, quoteApi.quoteGet (quoteRequestFor outputMint asset) = Except.ok q →
      quoteApi.swapPost (swapRequestFor walletAddress q) = Except.ok s →
      QuoteEvent.foundSwap asset.token.address s ∈ t) := by
  have hfilter : t.filter (fun e => QuoteEvent.eid e = asset.token.address) =
      assetBranch quoteApi outputMint walletAddress asset :=
    interleaving_filter_key (assetBranch quoteApi outputMint walletAddress)
      (fun a => a.token.address) QuoteEvent.eid
      (fun b => assetBranch_eid quoteApi outputMint walletAddress b)
      (getTokenAccounts conn tokens) hnodup t hrun asset hmem
  refine ⟨?_, ?_, ?_⟩
  · refine List.mem_of_mem_filter (p := fun e => QuoteEvent.eid e = asset.token.address) ?_
    rw [hfilter]
    cases hq : quoteApi.quoteGet (quoteRequestFor outputMint asset) <;>
      simp [assetBranch, hq]
  · intro q hq
    refine List.mem_of_mem_filter (p := fun e => QuoteEvent.eid e = asset.token.address) ?_
    rw [hfilter]
    cases hs : quoteApi.swapPost (swapRequestFor walletAddress q) <;>
      simp [assetBranch, hq, hs]
  · intro q s hq hs
    refine List.mem_of_mem_filter (p := fun e => QuoteEvent.eid e = asset.token.address) ?_
    rw [hfilter]
    simp [assetBranch, hq, hs]

/-- Witness for C4: in the two-asset fixture where asset X's quote call
rejects and asset Y's calls succeed, Y's swap callback still fires in the
sequential trace. -/
theorem findQuotes_isolation_witness :
    QuoteEvent.foundSwap balanceY.token.address { swapTransaction := "swapY" } ∈ tC4 :=
  (findQuotes_isolation dirXY "OUT" "Wallet1" apiFailX connXY tC4 balanceY
    (by decide) (interleaving_flatten _) (by decide)).2.2
    { payload := "qY" } { swapTransaction := "swapY" } rfl rfl

/-- C7: `findQuotes` always resolves — a trace exists for every scan outcome
and every trace is a completed run containing every asset branch in full
(the trace is a permutation of the branches' concatenation); when the
initial scan fails, the failure is caught, no callback fires, and the trace
set is identical to that of a scan that found no assets, so the two are
indistinguishable to the caller. -/
theorem findQuotes_resolution
    (tokens : String → Option TokenInfo) (outputMint walletAddress : String)
    (quoteApi : DefaultApi) :
    (∀ err t, findQuotes tokens outputMint walletAddress quoteApi (Except.error err) t ↔
      t = []) ∧
    (∀ err conn₀, getTokenAccounts conn₀ tokens = [] →
      ∀ t, findQuotes tokens outputMint walletAddress quoteApi (Except.error err) t ↔
        findQuotes tokens outputMint walletAddress quoteApi (Except.ok conn₀) t) ∧
    (∀ scanConn, ∃ t, findQuotes tokens outputMint walletAddress quoteApi scanConn t) ∧
    (∀ conn t, findQuotes tokens outputMint walletAddress quoteApi (Except.ok conn) t →
      t.Perm ((getTokenAccounts conn tokens).map
        (assetBranch quoteApi outputMint walletAddress)).flatten) := by
  refine ⟨fun err t => Iff.rfl, ?_, ?_, ?_⟩
  · intro err conn₀ hempty t
    show t = [] ↔ Interleaving _ t
    rw [hempty]
    exact ⟨fun h => h ▸ Interleaving.nil [] (by simp), fun h => interleaving_nil_family h⟩
  · intro scanConn
    cases scanConn with
    | error err => exact ⟨[], rfl⟩
    | ok conn =>
        exact ⟨((getTokenAccounts conn tokens).map
          (assetBranch quoteApi outputMint walletAddress)).flatten, interleaving_flatten _⟩
  · intro conn t hrun
    exact Interleaving.perm_flatten hrun

/-- Witness for C7 at concrete fixtures: the empty trace is the unique trace
of a failed scan, it is also a trace of the empty scan, and the sequential
trace over `connX` is a permutation of the branch concatenation. -/
theorem findQuotes_resolution_witness :
    (findQuotes dirX "OUT" "Wallet1" apiOk (Except.error "scan failed") [] ↔
      ([] : List QuoteEvent) = []) ∧
    (findQuotes dirX "OUT" "Wallet1" apiOk (Except.error "scan failed") [] ↔
      findQuotes dirX "OUT" "Wallet1" apiOk (Except.ok emptyScan) []) ∧
    tC7.Perm ((getTokenAccounts connX dirX).map (assetBranch apiOk "OUT" "Wallet1")).flatten :=
  ⟨(findQuotes_resolution dirX "OUT" "Wallet1" apiOk).1 "scan failed" [],
   (findQuotes_resolution dirX "OUT" "Wallet1" apiOk).2.1 "scan failed" emptyScan rfl [],
   (findQuotes_resolution dirX "OUT" "Wallet1" apiOk).2.2.2 connX tC7 (interleaving_flatten _)⟩

/-- C5: `getTokenAccounts` returns exactly one balance per fetched account
whose mint is a key of the directory (in order: it is the map of the known-
mint filter of the fetched accounts), silently discarding unknown mints, and
every returned balance is the account's raw on-chain integer amount, exactly. -/
theorem getTokenAccounts_spec (conn : ScanConnection)
    (tokenList : String → Option TokenInfo) :
    getTokenAccounts conn tokenList =
      ((conn.tokenAccounts ++ conn.token22Accounts).filter fun account =>
        (tokenList account.mint).isSome).map
        (fun account =>
          { account := account, token := (tokenList account.mint).getD default,
            balance := account.amount }) ∧
    ∀ tb ∈ getTokenAccounts conn tokenList,
      tokenList tb.account.mint = some tb.token ∧ tb.balance = tb.account.amount := by
  constructor
  · unfold getTokenAccounts
    induction conn.tokenAccounts ++ conn.token22Accounts with
    | nil => rfl
    | cons a l ih =>
      cases h : tokenList a.mint with
      | none => simp [List.filterMap_cons, List.filter_cons, h, ih]
      | some tok => simp [List.filterMap_cons, List.filter_cons, h, ih]
  · intro tb htb
    unfold getTokenAccounts at htb
    obtain ⟨a, ha, hfa⟩ := List.mem_filterMap.mp htb
    cases h : tokenList a.mint with
    | none => simp [h] at hfa
    | some tok =>
      simp only [h] at hfa
      obtain rfl := Option.some.inj hfa
      exact ⟨h, rfl⟩

/-- Every event of a submission branch carries that submission's asset id. -/
theorem submitBranch_eid (conn : Connection) (idtx : String × VersionedTransaction) :
    ∀ e ∈ submitBranch conn idtx, SweepEvent.eid e = some idtx.1 := by
  intro e he
  unfold submitBranch at he
  cases hs : conn.sendAndConfirmRawTransaction idtx.2 with
  | ok r =>
    rw [hs] at he
    simp only [List.mem_cons, List.mem_singleton, List.not_mem_nil, or_false] at he
    rcases he with rfl | rfl | rfl <;> rfl
  | error err =>
    rw [hs] at he
    simp only [List.mem_cons, List.mem_singleton, List.not_mem_nil, or_false] at he
    rcases he with rfl | rfl | rfl | rfl <;> rfl

/-- Classification of the events of any `sweepTokens` trace: each event is
the initial blockhash fetch, the single empty-id signing-failure report, or
an event of a submission branch keyed by one of the queued transaction ids. -/
theorem sweepTokens_mem_trace (wallet : WalletContextState) (conn : Connection)
    (assets : List Asset) (t : List SweepEvent)
    (hrun : sweepTokens wallet conn assets t) :
    ∀ e ∈ t, e = SweepEvent.fetchedBlockhash ∨
      e = SweepEvent.errorCb "" "Failed signing transactions!" ∨
      ∃ idtx : String × VersionedTransaction,
        idtx.1 ∈ ((buildTransactions wallet.publicKey conn.blockhash assets).2).map Prod.fst ∧
        e ∈ submitBranch conn idtx := by
  intro e he
  cases hsa : wallet.signAllTransactions with
  | none =>
    simp only [sweepTokens, hsa] at hrun
    subst hrun
    simp only [List.mem_singleton] at he
    exact Or.inl he
  | some signAll =>
    cases hsig : signAll
        (((buildTransactions wallet.publicKey conn.blockhash assets).2).map Prod.snd) with
    | error err =>
      simp only [sweepTokens, hsa, hsig] at hrun
      subst hrun
      rcases List.mem_cons.mp he with rfl | he2
      · exact Or.inl rfl
      · simp only [List.mem_singleton] at he2
        exact Or.inr (Or.inl he2)
    | ok signed =>
      simp only [sweepTokens, hsa, hsig] at hrun
      obtain ⟨u, hint, rfl⟩ := hrun
      rcases List.mem_cons.mp he with rfl | he2
      · exact Or.inl rfl
      · have hmem := hint.perm_flatten.mem_iff.mp he2
        obtain ⟨l, hl, hel⟩ := List.mem_flatten.mp hmem
        obtain ⟨idtx, hidtx, rfl⟩ := List.mem_map.mp hl
        exact Or.inr (Or.inr ⟨idtx, (List.of_mem_zip hidtx).1, hel⟩)

/-- C2: if the batched `signAllTransactions` call fails, `sweepTokens` still
resolves (the trace below is its unique trace), performs zero transaction
submissions, emits no state callback, and invokes the error callback exactly
once, with the empty-string id. -/
theorem sweepTokens_signing_failure (wallet : WalletContextState) (conn : Connection)
    (assets : List Asset)
    (signAll : List VersionedTransaction → Except String (List VersionedTransaction))
    (err : String)
    (hsa : wallet.signAllTransactions = some signAll)
    (hfail : signAll (((buildTransactions wallet.publicKey conn.blockhash assets).2).map
      Prod.snd) = Except.error err) :
    (∃ t, sweepTokens wallet conn assets t) ∧
    ∀ t, sweepTokens wallet conn assets t →
      t = [SweepEvent.fetchedBlockhash,
           SweepEvent.errorCb "" "Failed signing transactions!"] ∧
      t.filter SweepEvent.isSubmitted = [] ∧
      t.filter SweepEvent.isStateCb = [] ∧
      t.filter SweepEvent.isErrorCb =
        [SweepEvent.errorCb "" "Failed signing transactions!"] := by
  constructor
  · refine ⟨[SweepEvent.fetchedBlockhash,
      SweepEvent.errorCb "" "Failed signing transactions!"], ?_⟩
    simp only [sweepTokens, hsa, hfail]
  · intro t hrun
    simp only [sweepTokens, hsa, hfail] at hrun
    subst hrun
    exact ⟨rfl, rfl, rfl, rfl⟩

/-- Witness for C2: a concrete sweep whose wallet rejects the batch
signature produces exactly the two-event trace with one empty-id error. -/
theorem sweepTokens_signing_failure_witness :
    ([SweepEvent.fetchedBlockhash, SweepEvent.errorCb "" "Failed signing transactions!"]
        : List SweepEvent) =
      [SweepEvent.fetchedBlockhash, SweepEvent.errorCb "" "Failed signing transactions!"] ∧
    ([SweepEvent.fetchedBlockhash, SweepEvent.errorCb "" "Failed signing transactions!"]
        : List SweepEvent).filter SweepEvent.isSubmitted = [] ∧
    ([SweepEvent.fetchedBlockhash, SweepEvent.errorCb "" "Failed signing transactions!"]
        : List SweepEvent).filter SweepEvent.isStateCb = [] ∧
    ([SweepEvent.fetchedBlockhash, SweepEvent.errorCb "" "Failed signing transactions!"]
        : List SweepEvent).filter SweepEvent.isErrorCb =
      [SweepEvent.errorCb "" "Failed signing transactions!"] :=
  (sweepTokens_signing_failure walletFail connOk [assetX] signFail "user rejected"
    rfl rfl).2
    [SweepEvent.fetchedBlockhash, SweepEvent.errorCb "" "Failed signing transactions!"] rfl

/-- C3: for every asset whose transaction is signed and submitted (every
entry of the id/signed-transaction pairing), the state callback sequence for
that id is exactly Scooping, then — after the submission attempt — exactly
one terminal state: Scooped on success, or Error together with exactly one
error callback on failure; nothing is emitted for that id after the terminal
state, and the outcome for one entry is independent of every other entry's
submission result. -/
theorem sweepTokens_submission_states (wallet : WalletContextState) (conn : Connection)
    (assets : List Asset)
    (signAll : List VersionedTransaction → Except String (List VersionedTransaction))
    (signed : List VersionedTransaction)
    (hsa : wallet.signAllTransactions = some signAll)
    (hok : signAll (((buildTransactions wallet.publicKey conn.blockhash assets).2).map
      Prod.snd) = Except.ok signed)
    (hlen : signed.length =
      ((buildTransactions wallet.publicKey conn.blockhash assets).2).length)
    (hnodup : (((buildTransactions wallet.publicKey conn.blockhash assets).2).map
      Prod.fst).Nodup)
    (t : List SweepEvent) (hrun : sweepTokens wallet conn assets t)
    (idtx : String × VersionedTransaction)
    (hmem : idtx ∈ (((buildTransactions wallet.publicKey conn.blockhash assets).2).map
      Prod.fst).zip signed) :
    t.filter (fun e => SweepEvent.eid e = some idtx.1) = submitBranch conn idtx ∧
    (∀ r, conn.sendAndConfirmRawTransaction idtx.2 = Except.ok r →
      t.filter (fun e => SweepEvent.eid e = some idtx.1) =
        [SweepEvent.stateCb idtx.1 "Scooping", SweepEvent.submitted idtx.1,
         SweepEvent.stateCb idtx.1 "Scooped"]) ∧
    (∀ err2, conn.sendAndConfirmRawTransaction idtx.2 = Except.error err2 →
      t.filter (fun e => SweepEvent.eid e = some idtx.1) =
        [SweepEvent.stateCb idtx.1 "Scooping", SweepEvent.submitted idtx.1,
         SweepEvent.stateCb idtx.1 "Error", SweepEvent.errorCb idtx.1 err2]) := by
  simp only [sweepTokens, hsa, hok] at hrun
  obtain ⟨u, hint, rfl⟩ := hrun
  have hkeys : ((((buildTransactions wallet.publicKey conn.blockhash assets).2).map
      Prod.fst).zip signed).map (fun p => some p.1) =
      (((buildTransactions wallet.publicKey conn.blockhash assets).2).map Prod.fst).map
        some := by
    have hle : (((buildTransactions wallet.publicKey conn.blockhash assets).2).map
        Prod.fst).length ≤ signed.length := by
      simp [hlen]
    rw [show (fun p : String × VersionedTransaction => some p.1) =
      (some ∘ Prod.fst) from rfl]
    rw [← List.map_map, List.map_fst_zip _ _ hle]
  have hnodup2 : (((((buildTransactions wallet.publicKey conn.blockhash assets).2).map
      Prod.fst).zip signed).map (fun p => some p.1)).Nodup := by
    rw [hkeys]
    exact hnodup.map (Option.some_injective _)
  have hfilter : u.filter (fun e => SweepEvent.eid e = some idtx.1) =
      submitBranch conn idtx :=
    interleaving_filter_key (submitBranch conn) (fun p => some p.1) SweepEvent.eid
      (fun b => submitBranch_eid conn b)
      ((((buildTransactions wallet.publicKey conn.blockhash assets).2).map Prod.fst).zip
        signed) hnodup2 u hint idtx hmem
  have hfull : (SweepEvent.fetchedBlockhash :: u).filter
      (fun e => SweepEvent.eid e = some idtx.1) = submitBranch conn idtx := by
    rw [List.filter_cons_of_neg (by simp [SweepEvent.eid]), hfilter]
  refine ⟨hfull, ?_, ?_⟩
  · intro r hr
    rw [hfull]
    simp [submitBranch, hr]
  · intro err2 hr
    rw [hfull]
    simp [submitBranch, hr]

/-- Witness for C3: in a concrete successful sweep of one asset, the
projection of the sequential trace onto the asset's id is exactly
Scooping, the submission attempt, then Scooped. -/
theorem sweepTokens_submission_states_witness :
    (sweepSeqTrace walletOk connOk [assetX]).filter
      (fun e => SweepEvent.eid e = some "MintX") =
      [SweepEvent.stateCb "MintX" "Scooping", SweepEvent.submitted "MintX",
       SweepEvent.stateCb "MintX" "Scooped"] :=
  (sweepTokens_submission_states walletOk connOk [assetX] signOk
    [VersionedTransaction.deserialized "swapblobX"] rfl rfl rfl (by decide)
    (sweepSeqTrace walletOk connOk [assetX]) ⟨_, interleaving_flatten _, rfl⟩
    ("MintX", VersionedTransaction.deserialized "swapblobX") (by decide)).2.1 "sig1" rfl

/-- C6: for every approved (checked) asset of a sweep with a wallet key, a
transaction is enqueued for signing under the asset's token address exactly
when the asset has a swap payload; an approved zero-balance asset without a
swap payload gets an account-closure transaction constructed, but nothing is
enqueued (hence nothing signed or submitted) for it and it receives no state
or error callback in any trace. -/
theorem sweepTokens_enqueue_iff (wallet : WalletContextState) (conn : Connection)
    (assets : List Asset) (pk : String) (a : Asset)
    (hpk : wallet.publicKey = some pk)
    (hnodup : (assets.map fun x => x.asset.token.address).Nodup)
    (hmem : a ∈ assets) (hchecked : a.checked = true) :
    ((∃ tx, (a.asset.token.address, tx) ∈
        (buildTransactions wallet.publicKey conn.blockhash assets).2) ↔ a.swap.isSome) ∧
    (∀ sw, a.swap = some sw →
      (a.asset.token.address, deserializeSwapTransaction sw.swapTransaction) ∈
        (buildTransactions wallet.publicKey conn.blockhash assets).2) ∧
    (a.swap = none → a.asset.balance = 0 →
      closeAccountTx pk conn.blockhash ∈
        (buildTransactions wallet.publicKey conn.blockhash assets).1 ∧
      (∀ tx, (a.asset.token.address, tx) ∉
        (buildTransactions wallet.publicKey conn.blockhash assets).2) ∧
      (a.asset.token.address ≠ "" →
        ∀ t, sweepTokens wallet conn assets t →
          (∀ s, SweepEvent.stateCb a.asset.token.address s ∉ t) ∧
          (∀ e, SweepEvent.errorCb a.asset.token.address e ∉ t))) := by
  have hiff : (∃ tx, (a.asset.token.address, tx) ∈
      (buildTransactions wallet.publicKey conn.blockhash assets).2) ↔ a.swap.isSome := by
    constructor
    · rintro ⟨tx, htx⟩
      obtain ⟨b, hb, hfb⟩ := List.mem_filterMap.mp htx
      rw [hpk] at hfb
      by_cases hbc : b.checked
      · cases hbs : b.swap with
        | none => simp [buildForAsset, hbc, hbs] at hfb
        | some sw =>
          simp only [buildForAsset, hbc, hbs, if_true] at hfb
          obtain hpair := Option.some.inj hfb
          have haddr : b.asset.token.address = a.asset.token.address :=
            congrArg Prod.fst hpair
          have hba : b = a :=
            List.inj_on_of_nodup_map hnodup hb hmem haddr
          rw [← hba, hbs]
          rfl
      · simp [buildForAsset, hbc] at hfb
    · intro hsome
      obtain ⟨sw, hsw⟩ := Option.isSome_iff_exists.mp hsome
      refine ⟨deserializeSwapTransaction sw.swapTransaction, List.mem_filterMap.mpr
        ⟨a, hmem, ?_⟩⟩
      rw [hpk]
      simp [buildForAsset, hchecked, hsw]
  refine ⟨hiff, ?_, ?_⟩
  · intro sw hsw
    refine List.mem_filterMap.mpr ⟨a, hmem, ?_⟩
    rw [hpk]
    simp [buildForAsset, hchecked, hsw]
  · intro hswap hbal
    refine ⟨?_, ?_, ?_⟩
    · refine List.mem_filterMap.mpr ⟨a, hmem, ?_⟩
      rw [hpk]
      simp [buildForAsset, hchecked, hswap, hbal]
    · intro tx htx
      have := hiff.mp ⟨tx, htx⟩
      rw [hswap] at this
      simp at this
    · intro haddr t hrun
      have hnotkey : ∀ tx, (a.asset.token.address, tx) ∉
          (buildTransactions wallet.publicKey conn.blockhash assets).2 := by
        intro tx htx
        have := hiff.mp ⟨tx, htx⟩
        rw [hswap] at this
        simp at this
      have hnomem : ∀ ev : SweepEvent, SweepEvent.eid ev = some a.asset.token.address →
          ev ∉ t := by
        intro ev hev hmemt
        rcases sweepTokens_mem_trace wallet conn assets t hrun ev hmemt with h | h | h
        · rw [h] at hev
          simp [SweepEvent.eid] at hev
        · rw [h] at hev
          simp [SweepEvent.eid] at hev
          exact haddr hev.symm
        · obtain ⟨idtx, hk, hbr⟩ := h
          have hide : SweepEvent.eid ev = some idtx.1 := submitBranch_eid conn idtx ev hbr
          have hid : idtx.1 = a.asset.token.address := by
            have := hev.symm.trans hide
            exact (Option.some.inj this).symm
          obtain ⟨p, hp, hp1⟩ := List.mem_map.mp hk
          refine hnotkey p.2 ?_
          have hpa : p = (a.asset.token.address, p.2) := by
            rw [← hid, ← hp1]
          rw [← hpa]
          exact hp
      exact ⟨fun s => hnomem (SweepEvent.stateCb a.asset.token.address s) rfl,
             fun e => hnomem (SweepEvent.errorCb a.asset.token.address e) rfl⟩

/-- Witness for C6: in the concrete two-asset sweep, the zero-balance
no-swap asset Y gets a closure transaction constructed, nothing enqueued
under its address, and no state callback in the sequential trace. -/
theorem sweepTokens_enqueue_iff_witness :
    closeAccountTx "Wallet1" "h1" ∈
      (buildTransactions (some "Wallet1") "h1" [assetX, assetY0]).1 ∧
    SweepEvent.stateCb "MintY" "Scooping" ∉ sweepSeqTrace walletOk connOk [assetX, assetY0] :=
  ⟨((sweepTokens_enqueue_iff walletOk connOk [assetX, assetY0] "Wallet1" assetY0 rfl
      (by decide) (by decide) rfl).2.2 rfl rfl).1,
   (((sweepTokens_enqueue_iff walletOk connOk [assetX, assetY0] "Wallet1" assetY0 rfl
      (by decide) (by decide) rfl).2.2 rfl rfl).2.2 (by decide)
      (sweepSeqTrace walletOk connOk [assetX, assetY0])
      ⟨_, interleaving_flatten _, rfl⟩).1 "Scooping"⟩

/-- Counterexample to C8 as stated: the transactions `sweepTokens` signs and
submits are decoded from the aggregator payloads and are identical whatever
block reference was fetched — with the concrete swap asset, two different
fetched references yield the same queued transaction, which carries no
locally supplied reference at all; only the constructed-and-dropped closure
transactions depend on the fetch. -/
theorem sweepTokens_blockhash_counterexample :
    (buildTransactions (some "Wallet1") "h1" [assetX]).2 =
      [("MintX", VersionedTransaction.deserialized "swapblobX")] ∧
    (buildTransactions (some "Wallet1") "h1" [assetX]).2 =
      (buildTransactions (some "Wallet1") "h2" [assetX]).2 ∧
    ("h1" : String) ≠ "h2" ∧
    ¬ VersionedTransaction.builtAgainst (VersionedTransaction.deserialized "swapblobX") "h1" ∧
    (buildTransactions (some "Wallet1") "h1" [assetX]).1 ≠
      (buildTransactions (some "Wallet1") "h2" [assetX]).1 :=
  ⟨rfl, rfl, by decide, fun h => h, by decide⟩

/-- C8 amended: `sweepTokens` fetches the block reference exactly once per
invocation, as the first step, before assembling any transaction; the
fetched reference is carried by (all of) the account-closure transactions
constructed in the assembly loop, while the queue of transactions actually
signed and submitted is independent of the fetched reference. -/
theorem sweepTokens_blockhash_amended (wallet : WalletContextState) (conn : Connection)
    (assets : List Asset) :
    (∀ t, sweepTokens wallet conn assets t →
      ∃ u, t = SweepEvent.fetchedBlockhash :: u ∧ SweepEvent.fetchedBlockhash ∉ u) ∧
    (∀ ctx ∈ (buildTransactions wallet.publicKey conn.blockhash assets).1,
      ctx.builtAgainst conn.blockhash) ∧
    (∀ bh1 bh2, (buildTransactions wallet.publicKey bh1 assets).2 =
      (buildTransactions wallet.publicKey bh2 assets).2) := by
  refine ⟨?_, ?_, ?_⟩
  · intro t hrun
    cases hsa : wallet.signAllTransactions with
    | none =>
      simp only [sweepTokens, hsa] at hrun
      exact ⟨[], hrun, by simp⟩
    | some signAll =>
      cases hsig : signAll
          (((buildTransactions wallet.publicKey conn.blockhash assets).2).map Prod.snd) with
      | error err =>
        simp only [sweepTokens, hsa, hsig] at hrun
        exact ⟨[SweepEvent.errorCb "" "Failed signing transactions!"], hrun, by simp⟩
      | ok signed =>
        simp only [sweepTokens, hsa, hsig] at hrun
        obtain ⟨u, hint, rfl⟩ := hrun
        refine ⟨u, rfl, ?_⟩
        intro hmem
        have hm := hint.perm_flatten.mem_iff.mp hmem
        obtain ⟨l, hl, hel⟩ := List.mem_flatten.mp hm
        obtain ⟨idtx, hidtx, rfl⟩ := List.mem_map.mp hl
        have := submitBranch_eid conn idtx _ hel
        simp [SweepEvent.eid] at this
  · intro ctx hctx
    obtain ⟨b, hb, hfb⟩ := List.mem_filterMap.mp hctx
    cases hpk : wallet.publicKey with
    | none =>
      rw [hpk] at hfb
      simp [buildForAsset] at hfb
    | some pk =>
      rw [hpk] at hfb
      by_cases hbc : b.checked
      · by_cases hcond : b.swap.isSome ∨ b.asset.balance = 0
        · simp only [buildForAsset, hbc, hcond, if_true] at hfb
          obtain rfl := Option.some.inj hfb
          rfl
        · simp [buildForAsset, hbc, hcond] at hfb
      · simp [buildForAsset, hbc] at hfb
  · intro bh1 bh2
    refine List.filterMap_congr ?_
    intro b hb
    cases hpk : wallet.publicKey with
    | none => rfl
    | some pk =>
      by_cases hbc : b.checked <;> simp [buildForAsset, hbc]

/-- Witness for C8 amended: for the concrete two-asset sweep, the signed
queue is identical under two different fetched references, the closure
transaction carries the fetched reference, and the trace starts with the
single fetch. -/
theorem sweepTokens_blockhash_amended_witness :
    (buildTransactions (some "Wallet1") "h1" [assetX, assetY0]).2 =
      (buildTransactions (some "Wallet1") "h2" [assetX, assetY0]).2 ∧
    VersionedTransaction.builtAgainst (closeAccountTx "Wallet1" "h1") "h1" :=
  ⟨(sweepTokens_blockhash_amended walletOk connOk [assetX, assetY0]).2.2 "h1" "h2",
   (sweepTokens_blockhash_amended walletOk connOk [assetX, assetY0]).2.1
     (closeAccountTx "Wallet1" "h1") (by decide)⟩

/-- C9: `sweepTokens` never invokes `transactionIdCallback`: no trace of any
run contains a `txIdCb` event, even when a submission succeeds and resolves
to a transaction id (the source discards the resolved id). -/
theorem sweepTokens_no_txid (wallet : WalletContextState) (conn : Connection)
    (assets : List Asset) (t : List SweepEvent)
    (hrun : sweepTokens wallet conn assets t) (id txid : String) :
    SweepEvent.txIdCb id txid ∉ t := by
  intro hmem
  rcases sweepTokens_mem_trace wallet conn assets t hrun _ hmem with h | h | ⟨idtx, hk, hbr⟩
  · simp at h
  · simp at h
  · unfold submitBranch at hbr
    cases hs : conn.sendAndConfirmRawTransaction idtx.2 with
    | ok r =>
      rw [hs] at hbr
      simp at hbr
    | error e =>
      rw [hs] at hbr
      simp at hbr

/-- Witness for C9: the concrete successful sweep trace contains no
transaction-id callback even though the submission resolved to id sig1. -/
theorem sweepTokens_no_txid_witness :
    SweepEvent.txIdCb "MintX" "sig1" ∉ sweepSeqTrace walletOk connOk [assetX] :=
  sweepTokens_no_txid walletOk connOk [assetX] (sweepSeqTrace walletOk connOk [assetX])
    ⟨_, interleaving_flatten _, rfl⟩ "MintX" "sig1"

/-- C10: if the wallet exposes no `signAllTransactions` capability,
`sweepTokens` resolves after the blockhash fetch with nothing signed,
nothing submitted and none of the three callbacks invoked — the sweep is
silently skipped with no error report. -/
theorem sweepTokens_no_signer (wallet : WalletContextState) (conn : Connection)
    (assets : List Asset) (hnone : wallet.signAllTransactions = none) :
    (∃ t, sweepTokens wallet conn assets t) ∧
    ∀ t, sweepTokens wallet conn assets t →
      t = [SweepEvent.fetchedBlockhash] ∧
      t.filter SweepEvent.isSubmitted = [] ∧
      t.filter SweepEvent.isStateCb = [] ∧
      t.filter SweepEvent.isTxIdCb = [] ∧
      t.filter SweepEvent.isErrorCb = [] := by
  constructor
  · exact ⟨[SweepEvent.fetchedBlockhash], by simp only [sweepTokens, hnone]⟩
  · intro t hrun
    simp only [sweepTokens, hnone] at hrun
    subst hrun
    exact ⟨rfl, rfl, rfl, rfl, rfl⟩

/-- Witness for C10: a concrete sweep with an absent signing capability has
the one-event trace and no callback of any kind. -/
theorem sweepTokens_no_signer_witness :
    ([SweepEvent.fetchedBlockhash] : List SweepEvent) = [SweepEvent.fetchedBlockhash] ∧
    ([SweepEvent.fetchedBlockhash] : List SweepEvent).filter SweepEvent.isSubmitted = [] ∧
    ([SweepEvent.fetchedBlockhash] : List SweepEvent).filter SweepEvent.isStateCb = [] ∧
    ([SweepEvent.fetchedBlockhash] : List SweepEvent).filter SweepEvent.isTxIdCb = [] ∧
    ([SweepEvent.fetchedBlockhash] : List SweepEvent).filter SweepEvent.isErrorCb = [] :=
  (sweepTokens_no_signer walletNoSign connOk [assetX] rfl).2 [SweepEvent.fetchedBlockhash] rfl

/-- Witness for C5: the concrete scanner fixture keeps the known-mint
account with its exact raw integer balance. -/
theorem getTokenAccounts_spec_witness :
    dirX balanceX.account.mint = some balanceX.token ∧
    balanceX.balance = balanceX.account.amount :=
  (getTokenAccounts_spec connX dirX).2 balanceX (by decide)

end Scooper
